import Mathlib

/-!
Verification of the event-driven image pipeline (`src/lambdas/processImage.ts`
and `src/lib/eda-app-stack.ts`).

The handler in `processImage.ts` is a JavaScript function over untyped JSON
values.  We embed it shallowly: a `Js` value type, an executable model of
`JSON.parse`, JavaScript member access (with `undefined` as `Option.none` and
a `TypeError` on dereferencing `null`/`undefined`), `decodeURIComponent`,
and the handler itself as a state-passing function over the DynamoDB table
(keyed by `filename`, the table's partition key per `eda-app-stack.ts`).
-/

set_option maxRecDepth 40000

namespace EDA

/-- JSON values as produced by `JSON.parse`.  Numbers keep their source token:
no claim interprets numerics, so the model does not commit to a float
semantics. -/
inductive Js where
  | null : Js
  | bool (b : Bool) : Js
  | num (token : String) : Js
  | str (s : String) : Js
  | arr (elems : List Js) : Js
  | obj (fields : List (String × Js)) : Js

/-- The characters `JSON.parse` treats as whitespace. -/
def isJsonWs (c : Char) : Bool :=
  c = ' ' || c = '\t' || c = '\n' || c = '\r'

def skipWs : List Char → List Char
  | [] => []
  | c :: cs => if isJsonWs c then skipWs cs else c :: cs

def hexDigit (c : Char) : Option Nat :=
  if '0' ≤ c ∧ c ≤ '9' then some (c.toNat - 48)
  else if 'a' ≤ c ∧ c ≤ 'f' then some (c.toNat - 87)
  else if 'A' ≤ c ∧ c ≤ 'F' then some (c.toNat - 55)
  else none

/-- Left brace character (written via its code point). -/
def lbrace : Char := Char.ofNat 123
/-- Right brace character (written via its code point). -/
def rbrace : Char := Char.ofNat 125

/-- Parse the body of a JSON string literal, after the opening quote.
Returns the decoded characters and the remainder after the closing quote.
`\uXXXX` escapes outside the surrogate range decode to the code point;
surrogate escapes are rejected (a corner `JSON.parse` accepts as lone
UTF-16 units; no payload in this development contains them). -/
def parseStrBody : Nat → List Char → Option (List Char × List Char)
  | 0, _ => none
  | _, [] => none
  | fuel + 1, c :: cs =>
    if c = '"' then some ([], cs)
    else if c = '\\' then
      match cs with
      | [] => none
      | e :: cs2 =>
        if e = '"' || e = '\\' || e = '/' then
          (parseStrBody fuel cs2).map (fun p => (e :: p.1, p.2))
        else if e = 'n' then (parseStrBody fuel cs2).map (fun p => ('\n' :: p.1, p.2))
        else if e = 't' then (parseStrBody fuel cs2).map (fun p => ('\t' :: p.1, p.2))
        else if e = 'r' then (parseStrBody fuel cs2).map (fun p => ('\r' :: p.1, p.2))
        else if e = 'b' then (parseStrBody fuel cs2).map (fun p => (Char.ofNat 8 :: p.1, p.2))
        else if e = 'f' then (parseStrBody fuel cs2).map (fun p => (Char.ofNat 12 :: p.1, p.2))
        else if e = 'u' then
          match cs2 with
          | h1 :: h2 :: h3 :: h4 :: cs3 =>
            match hexDigit h1, hexDigit h2, hexDigit h3, hexDigit h4 with
            | some a, some b, some c3, some d =>
              let n := a * 4096 + b * 256 + c3 * 16 + d
              if 0xD800 ≤ n ∧ n ≤ 0xDFFF then none
              else (parseStrBody fuel cs3).map (fun p => (Char.ofNat n :: p.1, p.2))
            | _, _, _, _ => none
          | _ => none
        else none
    else if c.toNat < 0x20 then none
    else (parseStrBody fuel cs).map (fun p => (c :: p.1, p.2))

/-- Parse a JSON number token (`-?int frac? exp?`), returning the raw token
and the remainder. -/
def parseNumToken (cs : List Char) : Option (List Char × List Char) :=
  let (sign, cs1) :=
    match cs with
    | '-' :: rest => (['-'], rest)
    | _ => ([], cs)
  let intPart := cs1.takeWhile Char.isDigit
  let cs2 := cs1.dropWhile Char.isDigit
  if intPart = [] then none
  else if 1 < intPart.length ∧ intPart.head? = some '0' then none
  else
    let (fracPart, cs3) :=
      match cs2 with
      | '.' :: rest =>
        ('.' :: rest.takeWhile Char.isDigit, rest.dropWhile Char.isDigit)
      | _ => ([], cs2)
    if fracPart = ['.'] then none
    else
      match cs3 with
      | e :: rest =>
        if e = 'e' || e = 'E' then
          let (es, rest2) :=
            match rest with
            | '+' :: r => (['+'], r)
            | '-' :: r => (['-'], r)
            | _ => ([], rest)
          let expPart := rest2.takeWhile Char.isDigit
          if expPart = [] then none
          else some (sign ++ intPart ++ fracPart ++ (e :: es ++ expPart),
                     rest2.dropWhile Char.isDigit)
        else some (sign ++ intPart ++ fracPart, cs3)
      | [] => some (sign ++ intPart ++ fracPart, [])

/-- A pending composite value during parsing: an array with the elements
accumulated so far, or an object with the fields accumulated so far and the
key whose value is being parsed. -/
inductive JsFrame where
  | arrF (acc : List Js) : JsFrame
  | objF (acc : List (String × Js)) (key : String) : JsFrame

/-- One step of the JSON parser, driven by fuel so that every definition is
structurally recursive.  `pending = none` means a value is expected at the
head of the input; `pending = some v` means `v` was just completed and is
consumed by the enclosing frame (or returned at the top level). -/
def parseSteps : Nat → List JsFrame → Option Js → List Char → Option (Js × List Char)
  | 0, _, _, _ => none
  | fuel + 1, stack, none, cs =>
    match skipWs cs with
    | [] => none
    | c :: rest =>
      if c = '"' then
        match parseStrBody (rest.length + 1) rest with
        | some (s, rest2) => parseSteps fuel stack (some (Js.str s.asString)) rest2
        | none => none
      else if c = '[' then
        match skipWs rest with
        | ']' :: rest2 => parseSteps fuel stack (some (Js.arr [])) rest2
        | _ => parseSteps fuel (JsFrame.arrF [] :: stack) none rest
      else if c = lbrace then
        match skipWs rest with
        | c2 :: rest2 =>
          if c2 = rbrace then parseSteps fuel stack (some (Js.obj [])) rest2
          else if c2 = '"' then
            match parseStrBody (rest2.length + 1) rest2 with
            | some (k, rest3) =>
              match skipWs rest3 with
              | ':' :: rest4 =>
                parseSteps fuel (JsFrame.objF [] k.asString :: stack) none rest4
              | _ => none
            | none => none
          else none
        | [] => none
      else if c = 't' then
        match rest with
        | 'r' :: 'u' :: 'e' :: rest2 => parseSteps fuel stack (some (Js.bool true)) rest2
        | _ => none
      else if c = 'f' then
        match rest with
        | 'a' :: 'l' :: 's' :: 'e' :: rest2 => parseSteps fuel stack (some (Js.bool false)) rest2
        | _ => none
      else if c = 'n' then
        match rest with
        | 'u' :: 'l' :: 'l' :: rest2 => parseSteps fuel stack (some Js.null) rest2
        | _ => none
      else if c = '-' || c.isDigit then
        match parseNumToken (c :: rest) with
        | some (tok, rest2) => parseSteps fuel stack (some (Js.num tok.asString)) rest2
        | none => none
      else none
  | fuel + 1, stack, some v, cs =>
    match stack with
    | [] => some (v, cs)
    | JsFrame.arrF acc :: st =>
      match skipWs cs with
      | ',' :: rest => parseSteps fuel (JsFrame.arrF (acc ++ [v]) :: st) none rest
      | ']' :: rest => parseSteps fuel st (some (Js.arr (acc ++ [v]))) rest
      | _ => none
    | JsFrame.objF acc key :: st =>
      match skipWs cs with
      | ',' :: rest =>
        match skipWs rest with
        | '"' :: rest2 =>
          match parseStrBody (rest2.length + 1) rest2 with
          | some (k, rest3) =>
            match skipWs rest3 with
            | ':' :: rest4 =>
              parseSteps fuel (JsFrame.objF (acc ++ [(key, v)]) k.asString :: st) none rest4
            | _ => none
          | none => none
        | _ => none
      | c :: rest =>
        if c = rbrace then parseSteps fuel st (some (Js.obj (acc ++ [(key, v)]))) rest
        else none
      | [] => none

/-- `JSON.parse` on a string: parse one value, then require only trailing
whitespace.  `none` models a thrown `SyntaxError`. -/
def jsonParse (s : String) : Option Js :=
  match parseSteps (s.length * 4 + 16) [] none s.data with
  | some (v, rest) => if skipWs rest = [] then some v else none
  | none => none

/-- Serialize a `Js` value back to JSON text.  Used only to build concrete
test payloads (the doubly-wrapped SQS/SNS bodies) for closed theorems; the
handler itself never serializes. -/
def jsEncodeStr (s : String) : String :=
  "\"" ++ (s.data.map (fun c =>
    if c = '"' then "\\\""
    else if c = '\\' then "\\\\"
    else if c = '\n' then "\\n"
    else if c = '\t' then "\\t"
    else if c = '\r' then "\\r"
    else String.mk [c])).foldl (· ++ ·) "" ++ "\""

/-- The JSON text of one S3 event record `{s3:{bucket:{name},object:{key}}}`
(test-payload builder). -/
def mkS3RecordJson (bucket key : String) : String :=
  "\x7b\"s3\":\x7b\"bucket\":\x7b\"name\":" ++ jsEncodeStr bucket ++
    "\x7d,\"object\":\x7b\"key\":" ++ jsEncodeStr key ++ "\x7d\x7d\x7d"

/-- The doubly-wrapped SQS body delivered to the handler for one S3 event:
an outer JSON object whose `Message` field is the serialized SNS payload
`{Records:[...]}` (test-payload builder). -/
def mkBody (bucket key : String) : String :=
  "\x7b\"Message\":" ++
    jsEncodeStr ("\x7b\"Records\":[" ++ mkS3RecordJson bucket key ++ "]\x7d") ++ "\x7d"

/-- JavaScript property access `v.name`.  The argument `none` is `undefined`.
The result `none` models a thrown `TypeError` (property access on
`undefined` or `null`); `some none` is the value `undefined` (absent
property, and any property of a primitive or array — the built-in
properties of primitives are not among the names this handler reads). -/
def jsMember (v : Option Js) (name : String) : Option (Option Js) :=
  match v with
  | none => none
  | some Js.null => none
  | some (Js.obj fields) => some (fields.lookup name)
  | some _ => some none

/-- JavaScript truthiness of a possibly-`undefined` value, as tested by
`if (snsMessage.Records)`.  A number token is falsy when its mantissa has no
nonzero digit (`0`, `-0`, `0.0`, `0e5`, ...). -/
def jsTruthy (v : Option Js) : Bool :=
  match v with
  | none => false
  | some Js.null => false
  | some (Js.bool b) => b
  | some (Js.str s) => s ≠ ""
  | some (Js.num tok) =>
    (tok.data.takeWhile (fun c => c ≠ 'e' ∧ c ≠ 'E')).any
      (fun c => c ∈ ['1', '2', '3', '4', '5', '6', '7', '8', '9'])
  | some (Js.arr _) => true
  | some (Js.obj _) => true

/-- `JSON.parse(x)` where `x` is an arbitrary value: the argument is coerced
to a string first.  `undefined` coerces to `"undefined"` (a `SyntaxError`);
`null`, booleans and number tokens re-parse to themselves; objects coerce to
a non-JSON string; arrays are approximated as a `SyntaxError` (their `join`
coercion parses only in contrived cases no payload here exercises). -/
def jsonParseValue (v : Option Js) : Option Js :=
  match v with
  | some (Js.str s) => jsonParse s
  | some Js.null => some Js.null
  | some (Js.bool b) => some (Js.bool b)
  | some (Js.num tok) => jsonParse tok
  | _ => none

/-- `key.replace(/\+/g, " ")` from `processImage.ts`. -/
def replacePlusWithSpace (s : String) : String :=
  (s.data.map (fun c => if c = '+' then ' ' else c)).asString

/-- Decode one `%XX` escape to its byte value. -/
def pctByte : List Char → Option (Nat × List Char)
  | '%' :: h :: l :: rest =>
    match hexDigit h, hexDigit l with
    | some a, some b => some (a * 16 + b, rest)
    | _, _ => none
  | _ => none

/-- Core of `decodeURIComponent`: percent-escapes decode to bytes, and byte
sequences are decoded as UTF-8 (with continuation-range, overlong, surrogate
and max-code-point checks); any malformed escape or byte sequence is a
`URIError` (`none`).  Characters other than `%` pass through. -/
def decodeUriCore : Nat → List Char → Option (List Char)
  | 0, _ => none
  | _, [] => some []
  | fuel + 1, c :: cs =>
    if c ≠ '%' then (decodeUriCore fuel cs).map (c :: ·)
    else
      match pctByte (c :: cs) with
      | none => none
      | some (b, rest) =>
        if b < 0x80 then (decodeUriCore fuel rest).map (Char.ofNat b :: ·)
        else if 0xC2 ≤ b ∧ b ≤ 0xDF then
          match pctByte rest with
          | some (b2, rest2) =>
            if 0x80 ≤ b2 ∧ b2 ≤ 0xBF then
              (decodeUriCore fuel rest2).map (Char.ofNat ((b - 0xC0) * 64 + (b2 - 0x80)) :: ·)
            else none
          | none => none
        else if 0xE0 ≤ b ∧ b ≤ 0xEF then
          match pctByte rest with
          | some (b2, rest2) =>
            match pctByte rest2 with
            | some (b3, rest3) =>
              if 0x80 ≤ b2 ∧ b2 ≤ 0xBF ∧ 0x80 ≤ b3 ∧ b3 ≤ 0xBF then
                let cp := (b - 0xE0) * 4096 + (b2 - 0x80) * 64 + (b3 - 0x80)
                if 0x800 ≤ cp ∧ ¬ (0xD800 ≤ cp ∧ cp ≤ 0xDFFF) then
                  (decodeUriCore fuel rest3).map (Char.ofNat cp :: ·)
                else none
              else none
            | none => none
          | none => none
        else if 0xF0 ≤ b ∧ b ≤ 0xF4 then
          match pctByte rest with
          | some (b2, rest2) =>
            match pctByte rest2 with
            | some (b3, rest3) =>
              match pctByte rest3 with
              | some (b4, rest4) =>
                if 0x80 ≤ b2 ∧ b2 ≤ 0xBF ∧ 0x80 ≤ b3 ∧ b3 ≤ 0xBF ∧
                   0x80 ≤ b4 ∧ b4 ≤ 0xBF then
                  let cp := (b - 0xF0) * 262144 + (b2 - 0x80) * 4096 +
                            (b3 - 0x80) * 64 + (b4 - 0x80)
                  if 0x10000 ≤ cp ∧ cp ≤ 0x10FFFF then
                    (decodeUriCore fuel rest4).map (Char.ofNat cp :: ·)
                  else none
                else none
              | none => none
            | none => none
          | none => none
        else none

/-- `decodeURIComponent`; `none` models a thrown `URIError`. -/
def decodeURIComponent (s : String) : Option String :=
  (decodeUriCore (s.length + 1) s.data).map List.asString

/-- The key normalization the handler performs before any use of the key:
`decodeURIComponent(key.replace(/\+/g, " "))`. -/
def normalizeKey (key : String) : Option String :=
  decodeURIComponent (replacePlusWithSpace key)

/-- Capture group 1 of `srcKey.match(/\.([^.]*)$/)`: the substring after the
final `.`, defined exactly when the string contains a `.` (otherwise `match`
returns `null`). -/
def afterLastDot (s : String) : Option String :=
  let rev := s.data.reverse
  if rev.contains '.' then some ((rev.takeWhile (· ≠ '.')).reverse.asString)
  else none

/-- `.toLowerCase()` (ASCII case mapping, which covers every extension this
pipeline compares). -/
def lowerStr (s : String) : String :=
  (s.data.map Char.toLower).asString

/-- The lowercased extension of a (decoded) key, when the key contains a dot. -/
def extOf (s : String) : Option String :=
  (afterLastDot s).map lowerStr

/-- The ways a run of the handler can abort: a `JSON.parse` failure, a
`TypeError` (property access on `null`/`undefined`, indexing a `null`
regex-match result, iterating a non-array), a `URIError` from
`decodeURIComponent`, or an explicit `throw new Error(msg)`. -/
inductive JsError where
  | syntaxError : JsError
  | typeError : JsError
  | uriError : JsError
  | error (msg : String) : JsError
deriving DecidableEq

/-- The state the handler mutates: the DynamoDB `Images` table, modelled as
the list of distinct `filename` partition-key values present (the put item
`{filename: srcKey}` has no other attribute), and the list of message bodies
the function sends through its SQS client (`processImage.ts` constructs the
client and the stack passes `DLQ_URL`, but the handler never sends). -/
structure HandlerState where
  table : List String
  dlqSent : List String
deriving DecidableEq

/-- `PutCommand` with item `{filename: srcKey}` on a table whose partition
key is `filename`: an upsert; a put for a filename already present overwrites
the identical row. -/
def upsertFilename (table : List String) (filename : String) : List String :=
  if table.contains filename then table else table ++ [filename]

/-- The body of the inner `for (const messageRecord of snsMessage.Records)`
loop of `processImage.ts`, for one `messageRecord`:

* `const s3e = messageRecord.s3`
* `const srcBucket = s3e.bucket.name` (bound, then unused)
* `const srcKey = decodeURIComponent(s3e.object.key.replace(/\+/g, " "))`
* `const extension = srcKey.match(/\.([^.]*)$/)![1].toLowerCase()` — when the
  key has no `.`, `match` returns `null` and indexing it throws a `TypeError`
* `if (extension !== "jpeg" && extension !== "png") throw new Error(...)`
* `await ddbDocClient.send(new PutCommand({... Item: {filename: srcKey}}))`.

A thrown error is returned together with the state reached so far. -/
def processMessageRecord (st : HandlerState) (mr : Js) : HandlerState × Option JsError :=
  match jsMember (some mr) "s3" with
  | none => (st, some JsError.typeError)
  | some s3e =>
    match jsMember s3e "bucket" with
    | none => (st, some JsError.typeError)
    | some bkt =>
      match jsMember bkt "name" with
      | none => (st, some JsError.typeError)
      | some _srcBucketName =>
        match jsMember s3e "object" with
        | none => (st, some JsError.typeError)
        | some ob =>
          match jsMember ob "key" with
          | none => (st, some JsError.typeError)
          | some (some (Js.str rawKey)) =>
            match decodeURIComponent (replacePlusWithSpace rawKey) with
            | none => (st, some JsError.uriError)
            | some srcKey =>
              match afterLastDot srcKey with
              | none => (st, some JsError.typeError)
              | some ext0 =>
                if lowerStr ext0 ≠ "jpeg" ∧ lowerStr ext0 ≠ "png" then
                  (st, some (JsError.error "Unsupported file extension"))
                else
                  ({ st with table := upsertFilename st.table srcKey }, none)
          | some _ => (st, some JsError.typeError)

/-- The inner loop over `snsMessage.Records`: messages are processed in
order and a thrown error propagates, abandoning the remaining records while
keeping the table writes already performed. -/
def processInnerRecords (st : HandlerState) : List Js → HandlerState × Option JsError
  | [] => (st, none)
  | mr :: rest =>
    match processMessageRecord st mr with
    | (st', none) => processInnerRecords st' rest
    | (st', some e) => (st', some e)

/-- One SQS record of the batch. -/
structure SQSRecord where
  body : String
deriving DecidableEq

/-- Processing of one SQS record:
`JSON.parse(record.body)`, `JSON.parse(recordBody.Message)`, then
`if (snsMessage.Records)` guards the inner loop — a falsy/absent `Records`
silently skips the record; a truthy non-array value fails with a `TypeError`
(`for...of` over a non-iterable, or over a string whose character elements
lack `.s3.bucket`). -/
def processSqsRecord (st : HandlerState) (record : SQSRecord) : HandlerState × Option JsError :=
  match jsonParse record.body with
  | none => (st, some JsError.syntaxError)
  | some recordBody =>
    match jsMember (some recordBody) "Message" with
    | none => (st, some JsError.typeError)
    | some msg =>
      match jsonParseValue msg with
      | none => (st, some JsError.syntaxError)
      | some snsMessage =>
        match jsMember (some snsMessage) "Records" with
        | none => (st, some JsError.typeError)
        | some recs =>
          if jsTruthy recs then
            match recs with
            | some (Js.arr rs) => processInnerRecords st rs
            | _ => (st, some JsError.typeError)
          else (st, none)

/-- The outer `for (const record of event.Records)` loop: records processed
in order, a thrown error aborts the invocation (remaining records are not
processed), writes already performed persist. -/
def runRecords (st : HandlerState) : List SQSRecord → HandlerState × Option JsError
  | [] => (st, none)
  | r :: rest =>
    match processSqsRecord st r with
    | (st', none) => runRecords st' rest
    | (st', some e) => (st', some e)

/-- The exported `handler` of `processImage.ts`, as a function of the
ambient state (the DynamoDB table persists across invocations) and the SQS
event (its list of records). -/
def handler (st : HandlerState) (event : List SQSRecord) : HandlerState × Option JsError :=
  runRecords st event

/-- A well-formed S3 event record value, as the notification envelope
delivers it: `{s3: {bucket: {name: bucket}, object: {key: key}}}`. -/
def mkS3Record (bucket key : String) : Js :=
  Js.obj [("s3", Js.obj
    [("bucket", Js.obj [("name", Js.str bucket)]),
     ("object", Js.obj [("key", Js.str key)])])]

/-! Configuration translated from `src/lib/eda-app-stack.ts`. -/

/-- `maxReceiveCount: 3` of `imageProcessQueue`'s dead-letter configuration. -/
def imageProcessQueueMaxReceiveCount : Nat := 3

/-- The subscription filter policy of `updateTableFn` on
`deleteAndUpdateTopic`: attribute name and allow-list of
`sns.SubscriptionFilter.stringFilter({allowlist: ["Caption"]})`. -/
def updateTableFilterPolicy : String × List String := ("comment_type", ["Caption"])

/-- The subscriptions of `deleteAndUpdateTopic`: `processDeleteFn` with no
filter, `updateTableFn` with the `comment_type` allow-list filter. -/
def deleteAndUpdateTopicSubscriptions : List (String × Option (String × List String)) :=
  [("processDeleteFn", none), ("updateTableFn", some updateTableFilterPolicy)]

/-- Modelled from the spec: the Topic's filter evaluation (the fan-out
router is the managed notification service, not code of this repository).
Per §4.2, absence of a filter always matches; a filter matches only if the
named attribute's value is a member of the configured allow-list (exact
string membership). -/
def filterAccepts (filt : Option (String × List String)) (attrs : List (String × String)) : Bool :=
  match filt with
  | none => true
  | some (name, allow) =>
    match attrs.lookup name with
    | some v => allow.contains v
    | none => false

/-- Whether the topic delivers an event with the given attributes to the
named subscriber of `deleteAndUpdateTopic`. -/
def deliversTo (consumer : String) (attrs : List (String × String)) : Bool :=
  match deleteAndUpdateTopicSubscriptions.lookup consumer with
  | some filt => filterAccepts filt attrs
  | none => false

/-! Modelled from the spec: the Queue's per-message retry/redrive state
machine (the queue is the managed queue service, not code of this
repository; the repository only configures the redrive threshold).  Per
§4.3, `receive_count` increments at the moment of delivery; on failure the
message moves to the dead-letter target when `receive_count` has reached the
threshold and otherwise returns to pending; on success it is acknowledged
and removed. -/

inductive MsgFate where
  | inQueue : MsgFate
  | acked : MsgFate
  | deadLettered : MsgFate
deriving DecidableEq

structure QueueMsg where
  receiveCount : Nat
  fate : MsgFate
deriving DecidableEq

/-- One failed delivery attempt: deliver (incrementing `receiveCount`), then
fail, redriving to the Dead-Letter Sink at the configured threshold. -/
def deliverThenFail (m : QueueMsg) : QueueMsg :=
  if m.fate = MsgFate.inQueue then
    let c := m.receiveCount + 1
    if imageProcessQueueMaxReceiveCount ≤ c then ⟨c, MsgFate.deadLettered⟩
    else ⟨c, MsgFate.inQueue⟩
  else m

/-- One successful delivery attempt: deliver, process, acknowledge. -/
def deliverThenSucceed (m : QueueMsg) : QueueMsg :=
  if m.fate = MsgFate.inQueue then ⟨m.receiveCount + 1, MsgFate.acked⟩ else m

/-- A freshly enqueued message. -/
def freshMsg : QueueMsg := ⟨0, MsgFate.inQueue⟩

/-! Helper lemmas. -/

lemma mem_upsertFilename {t : List String} {k f : String}
    (h : f ∈ upsertFilename t k) : f ∈ t ∨ f = k := by
  unfold upsertFilename at h
  split at h
  · exact Or.inl h
  · rcases List.mem_append.1 h with h1 | h1
    · exact Or.inl h1
    · simp only [List.mem_singleton] at h1
      exact Or.inr h1

/-- Processing one message record on a well-formed S3 event value reduces to
the key-normalization, extension-check, upsert pipeline. -/
lemma processMessageRecord_mk (st : HandlerState) (b kr : String) :
    processMessageRecord st (mkS3Record b kr) =
      match decodeURIComponent (replacePlusWithSpace kr) with
      | none => (st, some JsError.uriError)
      | some srcKey =>
        match afterLastDot srcKey with
        | none => (st, some JsError.typeError)
        | some ext0 =>
          if lowerStr ext0 ≠ "jpeg" ∧ lowerStr ext0 ≠ "png" then
            (st, some (JsError.error "Unsupported file extension"))
          else ({ st with table := upsertFilename st.table srcKey }, none) := rfl

/-- Any filename present after one message record was processed was either
already in the table or has a lowercased extension in `{jpeg, png}`. -/
lemma table_mem_processMessageRecord {st : HandlerState} {mr : Js} {f : String}
    (h : f ∈ (processMessageRecord st mr).1.table) :
    f ∈ st.table ∨ extOf f = some "jpeg" ∨ extOf f = some "png" := by
  unfold processMessageRecord at h
  repeat' split at h
  all_goals try exact Or.inl h
  next srcKey ext0 heq hcond =>
    rcases mem_upsertFilename h with h1 | rfl
    · exact Or.inl h1
    · right
      rw [Classical.not_and_iff_or_not_not, not_not, not_not] at hcond
      have hx : extOf f = some (lowerStr ext0) := by
        simp [extOf, heq]
      rcases hcond with hc | hc
      · exact Or.inl (by rw [hx, hc])
      · exact Or.inr (by rw [hx, hc])

lemma table_mem_processInnerRecords :
    ∀ (rs : List Js) (st : HandlerState) (f : String),
      f ∈ (processInnerRecords st rs).1.table →
      f ∈ st.table ∨ extOf f = some "jpeg" ∨ extOf f = some "png" := by
  intro rs
  induction rs with
  | nil => intro st f h; exact Or.inl h
  | cons mr rest ih =>
    intro st f h
    unfold processInnerRecords at h
    split at h
    next st' heq =>
      rcases ih st' f h with h1 | h1
      · have := @table_mem_processMessageRecord st mr f
        rw [heq] at this
        exact this h1
      · exact Or.inr h1
    next st' e heq =>
      have := @table_mem_processMessageRecord st mr f
      rw [heq] at this
      exact this h

lemma table_mem_processSqsRecord {st : HandlerState} {r : SQSRecord} {f : String}
    (h : f ∈ (processSqsRecord st r).1.table) :
    f ∈ st.table ∨ extOf f = some "jpeg" ∨ extOf f = some "png" := by
  unfold processSqsRecord at h
  repeat' split at h
  all_goals try exact Or.inl h
  exact table_mem_processInnerRecords _ _ _ h

lemma table_mem_runRecords :
    ∀ (event : List SQSRecord) (st : HandlerState) (f : String),
      f ∈ (runRecords st event).1.table →
      f ∈ st.table ∨ extOf f = some "jpeg" ∨ extOf f = some "png" := by
  intro event
  induction event with
  | nil => intro st f h; exact Or.inl h
  | cons r rest ih =>
    intro st f h
    unfold runRecords at h
    split at h
    next st' heq =>
      rcases ih st' f h with h1 | h1
      · have := @table_mem_processSqsRecord st r f
        rw [heq] at this
        exact this h1
      · exact Or.inr h1
    next st' e heq =>
      have := @table_mem_processSqsRecord st r f
      rw [heq] at this
      exact this h

lemma dlqSent_processMessageRecord (st : HandlerState) (mr : Js) :
    (processMessageRecord st mr).1.dlqSent = st.dlqSent := by
  unfold processMessageRecord
  repeat' split
  all_goals rfl

lemma dlqSent_processInnerRecords :
    ∀ (rs : List Js) (st : HandlerState),
      (processInnerRecords st rs).1.dlqSent = st.dlqSent := by
  intro rs
  induction rs with
  | nil => intro st; rfl
  | cons mr rest ih =>
    intro st
    unfold processInnerRecords
    split
    next st' heq =>
      rw [ih st']
      have := dlqSent_processMessageRecord st mr
      rw [heq] at this
      exact this
    next st' e heq =>
      have := dlqSent_processMessageRecord st mr
      rw [heq] at this
      exact this

lemma dlqSent_processSqsRecord (st : HandlerState) (r : SQSRecord) :
    (processSqsRecord st r).1.dlqSent = st.dlqSent := by
  unfold processSqsRecord
  repeat' split
  all_goals first
    | rfl
    | exact dlqSent_processInnerRecords _ _

lemma dlqSent_runRecords :
    ∀ (event : List SQSRecord) (st : HandlerState),
      (runRecords st event).1.dlqSent = st.dlqSent := by
  intro event
  induction event with
  | nil => intro st; rfl
  | cons r rest ih =>
    intro st
    unfold runRecords
    split
    next st' heq =>
      rw [ih st']
      have := dlqSent_processSqsRecord st r
      rw [heq] at this
      exact this
    next st' e heq =>
      have := dlqSent_processSqsRecord st r
      rw [heq] at this
      exact this

/-! Concrete event payloads and invocation iteration, used by the claims
about repeated delivery. -/

/-- The SQS event carrying the notification for key `photo.png` in bucket
`images`, doubly wrapped as delivered. -/
def evPhotoPng : List SQSRecord := [⟨mkBody "images" "photo.png"⟩]

/-- One invocation of the handler on `evPhotoPng`, as a state transformer on
the persistent table. -/
def stepPhoto (s : HandlerState) : HandlerState := (handler s evPhotoPng).1

/-- `iterInvoke n f s` applies `f` to `s` `n` times (repeated invocations of
a consumer on the same persistent state). -/
def iterInvoke : Nat → (HandlerState → HandlerState) → HandlerState → HandlerState
  | 0, _, s => s
  | n + 1, f, s => iterInvoke n f (f s)

lemma stepPhoto_init : stepPhoto ⟨[], []⟩ = ⟨["photo.png"], []⟩ := by decide

lemma stepPhoto_fixed : stepPhoto ⟨["photo.png"], []⟩ = ⟨["photo.png"], []⟩ := by decide

lemma iterInvoke_stepPhoto_fixed :
    ∀ n, iterInvoke n stepPhoto ⟨["photo.png"], []⟩ = ⟨["photo.png"], []⟩
  | 0 => rfl
  | n + 1 => by
    rw [iterInvoke, stepPhoto_fixed]
    exact iterInvoke_stepPhoto_fixed n

/-! The claims. -/

/-- C1: for every object key whose (decoded) extension — the substring after
the final `.`, compared case-insensitively — is neither `jpeg` nor `png`,
the handler throws `Error("Unsupported file extension")` when it processes
that record, and no invocation of the handler ever adds an `ImageRecord`
whose `filename` is such a key to the State Store. -/
theorem C1_unsupported_extension_rejected :
    (∀ (st : HandlerState) (event : List SQSRecord) (f : String),
      extOf f ≠ some "jpeg" → extOf f ≠ some "png" →
      f ∈ (handler st event).1.table → f ∈ st.table) ∧
    (∀ (st : HandlerState) (b kr s : String),
      normalizeKey kr = some s → (extOf s).isSome →
      extOf s ≠ some "jpeg" → extOf s ≠ some "png" →
      processMessageRecord st (mkS3Record b kr) =
        (st, some (JsError.error "Unsupported file extension"))) := by
  constructor
  · intro st event f h1 h2 hmem
    rcases table_mem_runRecords event st f hmem with h | h | h
    · exact h
    · exact absurd h h1
    · exact absurd h h2
  · intro st b kr s hdec hsome h1 h2
    have hdec' : decodeURIComponent (replacePlusWithSpace kr) = some s := hdec
    obtain ⟨e, he⟩ : ∃ e, afterLastDot s = some e := by
      cases ha : afterLastDot s
      · rw [extOf, ha] at hsome
        simp at hsome
      · exact ⟨_, rfl⟩
    have hx : extOf s = some (lowerStr e) := by simp [extOf, he]
    rw [hx] at h1 h2
    have hcond : lowerStr e ≠ "jpeg" ∧ lowerStr e ≠ "png" :=
      ⟨fun hh => h1 (by rw [hh]), fun hh => h2 (by rw [hh])⟩
    rw [processMessageRecord_mk]
    simp only [hdec', he]
    rw [if_pos hcond]

/-- C1 witness: `doc.pdf` is rejected with the validation error, and a
handler run given `doc.pdf` adds no record for it. -/
theorem C1_witness :
    processMessageRecord ⟨[], []⟩ (mkS3Record "images" "doc.pdf") =
      (⟨[], []⟩, some (JsError.error "Unsupported file extension")) ∧
    ("doc.pdf" ∈ (handler ⟨["a.png"], []⟩ [⟨mkBody "images" "doc.pdf"⟩]).1.table →
      "doc.pdf" ∈ ["a.png"]) :=
  ⟨C1_unsupported_extension_rejected.2 ⟨[], []⟩ "images" "doc.pdf" "doc.pdf"
      (by decide) (by decide) (by decide) (by decide),
   C1_unsupported_extension_rejected.1 ⟨["a.png"], []⟩ [⟨mkBody "images" "doc.pdf"⟩]
      "doc.pdf" (by decide) (by decide)⟩

/-- C2: invoking the handler any positive number of times with the identical
`photo.png` notification event leaves exactly one `ImageRecord` with
`filename = "photo.png"`, and the repeated upsert makes no observable
difference to the final state. -/
theorem C2_idempotent_upsert :
    ∀ n : Nat,
      iterInvoke (n + 1) stepPhoto ⟨[], []⟩ = ⟨["photo.png"], []⟩ ∧
      (iterInvoke (n + 1) stepPhoto ⟨[], []⟩).table.count "photo.png" = 1 := by
  intro n
  have h : iterInvoke (n + 1) stepPhoto ⟨[], []⟩ = ⟨["photo.png"], []⟩ := by
    rw [iterInvoke, stepPhoto_init]
    exact iterInvoke_stepPhoto_fixed n
  exact ⟨h, by rw [h]; rfl⟩

/-- C5: with the configured `maxReceiveCount` of 3 on the image-processing
queue, a message that fails three delivery attempts is dead-lettered; one
that fails twice is not yet dead-lettered, and succeeding on the third
attempt acknowledges it. -/
theorem C5_redrive_boundary :
    (deliverThenFail (deliverThenFail (deliverThenFail freshMsg))).fate =
      MsgFate.deadLettered ∧
    (deliverThenFail freshMsg).fate ≠ MsgFate.deadLettered ∧
    (deliverThenFail (deliverThenFail freshMsg)).fate ≠ MsgFate.deadLettered ∧
    (deliverThenSucceed (deliverThenFail (deliverThenFail freshMsg))).fate =
      MsgFate.acked := by
  decide

/-- C6: an event on the delete/update topic is delivered to `updateTableFn`
exactly when its attributes bind `comment_type` to the exact string
`"Caption"`; in particular `"Other"` and an absent attribute are never
delivered. -/
theorem C6_caption_filter :
    (∀ attrs : List (String × String),
      deliversTo "updateTableFn" attrs = true ↔
        attrs.lookup "comment_type" = some "Caption") ∧
    deliversTo "updateTableFn" [("comment_type", "Other")] = false ∧
    deliversTo "updateTableFn" [] = false := by
  refine ⟨?_, by decide, by decide⟩
  intro attrs
  show filterAccepts (some updateTableFilterPolicy) attrs = true ↔ _
  unfold filterAccepts updateTableFilterPolicy
  cases h : attrs.lookup "comment_type" with
  | none => simp [h]
  | some v => simp [h, List.contains]

/-- C3 counterexample: publishing `Created` for `doc.pdf` makes the handler
throw; it sends nothing through its SQS client, so no structured
`{bucket, key, error}` dead-letter message is published directly — the
claim's direct-to-DLQ publication does not happen. -/
theorem C3_counterexample :
    handler ⟨[], []⟩ [⟨mkBody "images" "doc.pdf"⟩] =
      (⟨[], []⟩, some (JsError.error "Unsupported file extension")) ∧
    (handler ⟨[], []⟩ [⟨mkBody "images" "doc.pdf"⟩]).1.dlqSent = [] := by
  exact ⟨by decide, by decide⟩

/-- C3 (amended): on an unsupported extension the consumer throws
`Error("Unsupported file extension")` and publishes nothing to the
Dead-Letter Sink itself (no invocation ever sends through the SQS client);
the failed message is instead subject to queue retry and reaches the
Dead-Letter Sink through the queue's redrive after 3 failed deliveries. -/
theorem C3_amended_throw_and_redrive :
    (∀ (st : HandlerState) (event : List SQSRecord),
      (handler st event).1.dlqSent = st.dlqSent) ∧
    (∀ (st : HandlerState) (b kr s : String),
      normalizeKey kr = some s → (extOf s).isSome →
      extOf s ≠ some "jpeg" → extOf s ≠ some "png" →
      processMessageRecord st (mkS3Record b kr) =
        (st, some (JsError.error "Unsupported file extension"))) ∧
    (deliverThenFail (deliverThenFail (deliverThenFail freshMsg))).fate =
      MsgFate.deadLettered := by
  refine ⟨?_, ?_, by decide⟩
  · intro st event
    exact dlqSent_runRecords event st
  · intro st b kr s hdec hsome h1 h2
    have hdec' : decodeURIComponent (replacePlusWithSpace kr) = some s := hdec
    obtain ⟨e, he⟩ : ∃ e, afterLastDot s = some e := by
      cases ha : afterLastDot s
      · rw [extOf, ha] at hsome
        simp at hsome
      · exact ⟨_, rfl⟩
    have hx : extOf s = some (lowerStr e) := by simp [extOf, he]
    rw [hx] at h1 h2
    have hcond : lowerStr e ≠ "jpeg" ∧ lowerStr e ≠ "png" :=
      ⟨fun hh => h1 (by rw [hh]), fun hh => h2 (by rw [hh])⟩
    rw [processMessageRecord_mk]
    simp only [hdec', he]
    rw [if_pos hcond]

/-- C3 witness for the amended claim, at the `doc.pdf` event. -/
theorem C3_amended_witness :
    (handler ⟨[], ["old"]⟩ [⟨mkBody "images" "doc.pdf"⟩]).1.dlqSent = ["old"] ∧
    processMessageRecord ⟨[], []⟩ (mkS3Record "images" "doc.pdf") =
      (⟨[], []⟩, some (JsError.error "Unsupported file extension")) :=
  ⟨C3_amended_throw_and_redrive.1 ⟨[], ["old"]⟩ [⟨mkBody "images" "doc.pdf"⟩],
   C3_amended_throw_and_redrive.2.1 ⟨[], []⟩ "images" "doc.pdf" "doc.pdf"
      (by decide) (by decide) (by decide) (by decide)⟩

/-- C4 counterexample: a batch whose first message carries `doc.pdf` and
whose second carries `photo.png` ends with an empty table — the failure on
the first message prevented the valid second message from being processed,
though alone it would have been recorded. -/
theorem C4_counterexample :
    (handler ⟨[], []⟩
        [⟨mkBody "images" "doc.pdf"⟩, ⟨mkBody "images" "photo.png"⟩]).1.table = [] ∧
    (handler ⟨[], []⟩ [⟨mkBody "images" "photo.png"⟩]).1.table = ["photo.png"] := by
  exact ⟨by decide, by decide⟩

/-- C4 (amended): the handler processes the batch sequentially and a failure
on one message aborts the invocation: whenever processing a record throws,
the handler returns that error and the remaining records of the batch are
not processed at all. -/
theorem C4_amended_failure_aborts_batch :
    ∀ (st : HandlerState) (r : SQSRecord) (rest : List SQSRecord)
      (st' : HandlerState) (e : JsError),
      processSqsRecord st r = (st', some e) →
      handler st (r :: rest) = (st', some e) := by
  intro st r rest st' e h
  unfold handler runRecords
  rw [h]

/-- C4 witness for the amended claim: the `doc.pdf` failure returns
immediately, with the trailing `photo.png` message unprocessed. -/
theorem C4_amended_witness :
    handler ⟨[], []⟩ [⟨mkBody "images" "doc.pdf"⟩, ⟨mkBody "images" "photo.png"⟩] =
      (⟨[], []⟩, some (JsError.error "Unsupported file extension")) :=
  C4_amended_failure_aborts_batch ⟨[], []⟩ ⟨mkBody "images" "doc.pdf"⟩
    [⟨mkBody "images" "photo.png"⟩] ⟨[], []⟩
    (JsError.error "Unsupported file extension") (by decide)

/-- C7: the object key is normalized — every `+` replaced by a space, then
percent-decoded — before any use: the extension check runs on the normalized
key, and when a record is written its `filename` is exactly the normalized
key (never the raw key). -/
theorem C7_key_normalized_before_use :
    ∀ (st : HandlerState) (b kr s : String),
      normalizeKey kr = some s →
      normalizeKey kr = decodeURIComponent (replacePlusWithSpace kr) ∧
      ((extOf s = some "jpeg" ∨ extOf s = some "png") →
        processMessageRecord st (mkS3Record b kr) =
          ({ table := upsertFilename st.table s, dlqSent := st.dlqSent }, none)) ∧
      (¬ (extOf s = some "jpeg" ∨ extOf s = some "png") →
        (processMessageRecord st (mkS3Record b kr)).1 = st) := by
  intro st b kr s hdec
  have hdec' : decodeURIComponent (replacePlusWithSpace kr) = some s := hdec
  refine ⟨rfl, ?_, ?_⟩
  · intro hgood
    obtain ⟨e, he, hle⟩ :
        ∃ e, afterLastDot s = some e ∧ (lowerStr e = "jpeg" ∨ lowerStr e = "png") := by
      rcases hgood with hg | hg
      · rcases Option.map_eq_some'.1 hg with ⟨e, he, hle⟩
        exact ⟨e, he, Or.inl hle⟩
      · rcases Option.map_eq_some'.1 hg with ⟨e, he, hle⟩
        exact ⟨e, he, Or.inr hle⟩
    have hneg : ¬ (lowerStr e ≠ "jpeg" ∧ lowerStr e ≠ "png") := by
      rcases hle with h | h
      · exact fun hc => hc.1 h
      · exact fun hc => hc.2 h
    rw [processMessageRecord_mk]
    simp only [hdec', he]
    rw [if_neg hneg]
  · intro hbad
    cases ha : afterLastDot s with
    | none =>
      rw [processMessageRecord_mk]
      simp only [hdec', ha]
    | some e =>
      have hcond : lowerStr e ≠ "jpeg" ∧ lowerStr e ≠ "png" := by
        refine ⟨fun hh => hbad ?_, fun hh => hbad ?_⟩
        · exact Or.inl (by simp [extOf, ha, hh])
        · exact Or.inr (by simp [extOf, ha, hh])
      rw [processMessageRecord_mk]
      simp only [hdec', ha]
      rw [if_pos hcond]

/-- C7 witness: the key `my+pic%21.png` is stored under its normalized form
`my pic!.png`. -/
theorem C7_witness :
    processMessageRecord ⟨[], []⟩ (mkS3Record "images" "my+pic%21.png") =
      ({ table := upsertFilename [] "my pic!.png", dlqSent := [] }, none) :=
  (C7_key_normalized_before_use ⟨[], []⟩ "images" "my+pic%21.png" "my pic!.png"
      (by decide)).2.1 (by decide)

/-- C8: the consumer unwraps exactly two serialization layers per message:
the body is parsed as JSON, the `Message` field of the result is parsed as
JSON, and processing continues on the inner object's `Records` array; an
unparseable body is a `SyntaxError`. -/
theorem C8_two_layer_unwrap :
    (∀ (st : HandlerState) (body : String) (bodyJs : Js) (m : String)
       (inner : Js) (rs : List Js),
      jsonParse body = some bodyJs →
      jsMember (some bodyJs) "Message" = some (some (Js.str m)) →
      jsonParse m = some inner →
      jsMember (some inner) "Records" = some (some (Js.arr rs)) →
      processSqsRecord st ⟨body⟩ = processInnerRecords st rs) ∧
    (∀ (st : HandlerState) (body : String),
      jsonParse body = none →
      processSqsRecord st ⟨body⟩ = (st, some JsError.syntaxError)) := by
  constructor
  · intro st body bodyJs m inner rs h1 h2 h3 h4
    unfold processSqsRecord
    simp only [h1]
    simp only [h2]
    simp only [jsonParseValue]
    simp only [h3]
    simp only [h4]
    simp only [jsTruthy, if_true]
  · intro st body h
    unfold processSqsRecord
    simp only [h]

/-- The parsed outer body of the `photo.png` test payload. -/
def photoBodyJs : Js :=
  Js.obj [("Message",
    Js.str ("\x7b\"Records\":[" ++ mkS3RecordJson "images" "photo.png" ++ "]\x7d"))]

/-- The parsed inner SNS payload of the `photo.png` test payload. -/
def photoInnerJs : Js :=
  Js.obj [("Records", Js.arr [mkS3Record "images" "photo.png"])]

/-- C8 witness: the doubly-wrapped `photo.png` body unwraps to its inner
records. -/
theorem C8_witness :
    processSqsRecord ⟨[], []⟩ ⟨mkBody "images" "photo.png"⟩ =
      processInnerRecords ⟨[], []⟩ [mkS3Record "images" "photo.png"] :=
  C8_two_layer_unwrap.1 ⟨[], []⟩ (mkBody "images" "photo.png") photoBodyJs
    ("\x7b\"Records\":[" ++ mkS3RecordJson "images" "photo.png" ++ "]\x7d")
    photoInnerJs [mkS3Record "images" "photo.png"]
    (by rfl) (by rfl) (by rfl) (by rfl)

/-- C9: a key with no `.` makes the extension expression index the `null`
result of `match`, so the handler fails with a `TypeError` — not with the
`Unsupported file extension` validation error. -/
theorem C9_dotless_key_type_error :
    ∀ (st : HandlerState) (b kr s : String),
      normalizeKey kr = some s →
      afterLastDot s = none →
      processMessageRecord st (mkS3Record b kr) = (st, some JsError.typeError) := by
  intro st b kr s hdec ha
  have hdec' : decodeURIComponent (replacePlusWithSpace kr) = some s := hdec
  rw [processMessageRecord_mk]
  simp only [hdec', ha]

/-- C9 witness: the dotless key `README`. -/
theorem C9_witness :
    processMessageRecord ⟨[], []⟩ (mkS3Record "images" "README") =
      (⟨[], []⟩, some JsError.typeError) :=
  C9_dotless_key_type_error ⟨[], []⟩ "images" "README" "README" (by decide) (by decide)

/-- C10: a message whose inner parsed SNS payload is an object with no
`Records` field is silently skipped: the handler completes without error and
writes nothing. -/
theorem C10_missing_records_silently_skipped :
    ∀ (st : HandlerState) (body : String) (bodyJs : Js) (m : String)
      (fs : List (String × Js)),
      jsonParse body = some bodyJs →
      jsMember (some bodyJs) "Message" = some (some (Js.str m)) →
      jsonParse m = some (Js.obj fs) →
      fs.lookup "Records" = none →
      processSqsRecord st ⟨body⟩ = (st, none) := by
  intro st body bodyJs m fs h1 h2 h3 h4
  unfold processSqsRecord
  simp only [h1]
  simp only [h2]
  simp only [jsonParseValue]
  simp only [h3]
  simp only [jsMember]
  simp only [h4]
  simp only [jsTruthy, Bool.false_eq_true, if_false]

/-- The test payload whose inner SNS object has no `Records` field. -/
def bodyNoRecords : String :=
  "\x7b\"Message\":" ++ jsEncodeStr "\x7b\"Subject\":\"hi\"\x7d" ++ "\x7d"

/-- C10 witness: a body whose inner payload only has a `Subject` field is
acknowledged without error or writes. -/
theorem C10_witness :
    processSqsRecord ⟨[], []⟩ ⟨bodyNoRecords⟩ = (⟨[], []⟩, none) :=
  C10_missing_records_silently_skipped ⟨[], []⟩ bodyNoRecords
    (Js.obj [("Message", Js.str "\x7b\"Subject\":\"hi\"\x7d")])
    "\x7b\"Subject\":\"hi\"\x7d" [("Subject", Js.str "hi")]
    (by rfl) (by rfl) (by rfl) (by rfl)

end EDA
